import Mathlib

/-!
Verification of the s3xplorer transfer/retry/worker orchestration core.

Shallow embedding of:
  - AWSClient._execute_with_retry        (src/core/aws_client.py, lines 92-171)
  - AWSClient.list_objects               (src/core/aws_client.py, lines 460-543)
  - AWSClient.download_file              (src/core/aws_client.py, lines 642-769)
  - the upload/download ProgressCallback classes (lines 581-599 and 681-704)
  - UploadWorker.run / DownloadWorker.run (src/ui/workers.py, lines 213-283, 299-372)
  - DeleteDirectoryWorker.run            (src/ui/workers.py, lines 739-805)
  - WorkerManager.cancel_worker          (src/ui/workers.py, lines 59-70)
  - OperationsWindow.cancel_operation / complete_operation
                                         (src/ui/operations_window.py, lines 399-495)
  - ListObjectsWorker.run                (src/ui/workers.py, lines 164-196)

Machine integers are modelled as Nat; Python float division occurring inside
int(...) truncation is modelled as Nat division; a raised exception is
modelled as an error value.
-/

/-- Error data carried by the AWSError exception (aws_client.py, lines 25-48). -/
structure AWSErrorInfo where
  message : String
  code : Option String
  operation : String
deriving DecidableEq, Repr

/-- Outcome of one execution of the wrapped backend callable inside
_execute_with_retry: it returns, raises botocore ClientError with a code and a
message, raises ConnectionError or TimeoutError, or raises anything else. -/
inductive AttemptOutcome where
  | ok
  | clientError (code msg : String)
  | connError (msg : String)
  | otherError (msg : String)
deriving DecidableEq, Repr

/-- The fixed transient error-code set of _execute_with_retry
(aws_client.py, lines 115-117). -/
def retryableCodes : List String :=
  ["SlowDown", "ThrottlingException", "RequestLimitExceeded",
   "RequestTimeout", "InternalError", "ServiceUnavailable",
   "ProvisionedThroughputExceededException"]

/-- Holds when the outcome takes one of the two retry branches of
_execute_with_retry: a ClientError with a code in the transient set
(line 115) or a ConnectionError/TimeoutError (line 143). -/
def AttemptOutcome.isRetryableFailure : AttemptOutcome → Prop
  | .clientError code _ => code ∈ retryableCodes
  | .connError _ => True
  | _ => False

/-- Observable trace of one _execute_with_retry invocation: how many times the
wrapped callable ran, the sleep durations in order, and the exception raised
(none when the call returned normally). -/
structure RetryTrace where
  attempts : Nat
  sleeps : List Nat
  result : Option AWSErrorInfo
deriving DecidableEq, Repr

/-- Delay computed before a sleep in _execute_with_retry (lines 127-130 and
151-155), where r is the value of the retries counter after its increment. -/
def retryDelayFor (retryDelay : Nat) (expBackoff : Bool) (r : Nat) : Nat :=
  if expBackoff then retryDelay * 2 ^ (r - 1) else retryDelay

theorem retryDelayFor_succ (retryDelay : Nat) (expBackoff : Bool) (n : Nat) :
    retryDelayFor retryDelay expBackoff (n + 1)
      = if expBackoff then retryDelay * 2 ^ n else retryDelay := by
  simp [retryDelayFor]

/-- The while-loop of _execute_with_retry (lines 98-171).  The loop guard is
retries <= max_retries; we carry fuel = max_retries + 1 - retries, so fuel = 0
exactly when the guard fails.  func n is the outcome of the n-th execution of
the wrapped callable (each loop iteration that continues increments retries by
exactly one, so the iteration counter equals retries). -/
def retryLoop (retryDelay : Nat) (expBackoff : Bool) (opName : String)
    (func : Nat → AttemptOutcome) :
    Nat → Nat → List Nat → Option AWSErrorInfo → RetryTrace
  | 0, retries, sleeps, lastExc =>
    -- loop guard fails: raise last_exception (lines 169-171); if it is None
    -- the Python function falls through and returns None
    { attempts := retries, sleeps := sleeps, result := lastExc }
  | fuel + 1, retries, sleeps, _ =>
    match func retries with
    | .ok => { attempts := retries + 1, sleeps := sleeps, result := none }
    | .clientError code msg =>
      if code ∈ retryableCodes then
        retryLoop retryDelay expBackoff opName func fuel (retries + 1)
          (sleeps ++ [retryDelayFor retryDelay expBackoff (retries + 1)])
          (some { message := msg, code := some code, operation := opName })
      else
        { attempts := retries + 1, sleeps := sleeps,
          result := some { message := msg, code := some code, operation := opName } }
    | .connError msg =>
      retryLoop retryDelay expBackoff opName func fuel (retries + 1)
        (sleeps ++ [retryDelayFor retryDelay expBackoff (retries + 1)])
        (some { message := msg, code := none, operation := opName })
    | .otherError msg =>
      { attempts := retries + 1, sleeps := sleeps,
        result := some { message := msg, code := none, operation := opName } }

/-- AWSClient._execute_with_retry (aws_client.py, lines 92-171). -/
def execute_with_retry (maxRetries retryDelay : Nat) (expBackoff : Bool)
    (opName : String) (func : Nat → AttemptOutcome) : RetryTrace :=
  retryLoop retryDelay expBackoff opName func (maxRetries + 1) 0 [] none

/-- Invariant-carrying induction for the retry loop: the accumulated sleeps are
exactly the backoff schedule, and at most fuel further attempts happen. -/
theorem retryLoop_spec (retryDelay : Nat) (expBackoff : Bool) (opName : String)
    (func : Nat → AttemptOutcome) :
    ∀ (fuel retries : Nat) (sleeps : List Nat) (lastExc : Option AWSErrorInfo),
      sleeps = (List.range sleeps.length).map
          (fun n => retryDelayFor retryDelay expBackoff (n + 1)) →
      sleeps.length = retries →
      (retryLoop retryDelay expBackoff opName func fuel retries sleeps lastExc).attempts
          ≤ retries + fuel ∧
      (retryLoop retryDelay expBackoff opName func fuel retries sleeps lastExc).sleeps
        = (List.range (retryLoop retryDelay expBackoff opName func fuel retries
              sleeps lastExc).sleeps.length).map
            (fun n => retryDelayFor retryDelay expBackoff (n + 1)) := by
  intro fuel
  induction fuel with
  | zero =>
    intro retries sleeps lastExc hval _
    exact ⟨Nat.le_add_right _ _, hval⟩
  | succ f ih =>
    intro retries sleeps lastExc hval hlen
    have hv2 : sleeps = (List.range retries).map
        (fun n => retryDelayFor retryDelay expBackoff (n + 1)) := by
      rw [hval, hlen]
    have hval' : sleeps ++ [retryDelayFor retryDelay expBackoff (retries + 1)]
        = (List.range (sleeps ++ [retryDelayFor retryDelay expBackoff
            (retries + 1)]).length).map
            (fun n => retryDelayFor retryDelay expBackoff (n + 1)) := by
      rw [List.length_append, List.length_singleton, hlen, List.range_succ,
        List.map_append, ← hv2]
      simp
    have hlen' : (sleeps ++ [retryDelayFor retryDelay expBackoff
        (retries + 1)]).length = retries + 1 := by simp [hlen]
    cases hfunc : func retries with
    | ok =>
      simp only [retryLoop, hfunc]
      exact ⟨by omega, hval⟩
    | clientError code msg =>
      by_cases hcode : code ∈ retryableCodes
      · simp only [retryLoop, hfunc, if_pos hcode]
        have h := ih (retries + 1) _
          (some { message := msg, code := some code, operation := opName }) hval' hlen'
        exact ⟨le_trans h.1 (by omega), h.2⟩
      · simp only [retryLoop, hfunc, if_neg hcode]
        exact ⟨by omega, hval⟩
    | connError msg =>
      simp only [retryLoop, hfunc]
      have h := ih (retries + 1) _
        (some { message := msg, code := none, operation := opName }) hval' hlen'
      exact ⟨le_trans h.1 (by omega), h.2⟩
    | otherError msg =>
      simp only [retryLoop, hfunc]
      exact ⟨by omega, hval⟩

/-- Claim C1: for every call through _execute_with_retry, the delay slept
before the Nth retry (1-based) equals retry_delay * 2^(N-1) when exponential
backoff is enabled and retry_delay otherwise, and the wrapped callable is
executed at most max_retries + 1 times. -/
theorem retry_backoff_delays (maxRetries retryDelay : Nat) (expBackoff : Bool)
    (opName : String) (func : Nat → AttemptOutcome) :
    (execute_with_retry maxRetries retryDelay expBackoff opName func).attempts
        ≤ maxRetries + 1 ∧
    (execute_with_retry maxRetries retryDelay expBackoff opName func).sleeps
      = (List.range (execute_with_retry maxRetries retryDelay expBackoff opName
            func).sleeps.length).map
          (fun n => if expBackoff then retryDelay * 2 ^ n else retryDelay) := by
  have h := retryLoop_spec retryDelay expBackoff opName func (maxRetries + 1) 0 [] none
    (by simp) (by simp)
  have h2 := h.2
  simp only [retryDelayFor_succ] at h2
  exact ⟨by simpa [execute_with_retry] using h.1,
    by simpa [execute_with_retry] using h2⟩

theorem backoff_schedule_shift (d : Nat → Nat) (r k : Nat) (h : r < k) :
    d (r + 1) :: (List.range (k - (r + 1))).map (fun n => d (r + 1 + n + 1))
      = (List.range (k - r)).map (fun n => d (r + n + 1)) := by
  have hk : k - r = (k - (r + 1)) + 1 := by omega
  rw [hk, List.range_succ_eq_map, List.map_cons, List.map_map]
  refine congrArg₂ _ rfl ?_
  exact List.map_congr_left (fun n _ => by simp only [Function.comp]; congr 1; omega)

/-- Claim C2: if the first k executions fail with transient (retryable) errors
and execution k fails with a ClientError whose code is outside the transient
set, _execute_with_retry raises an AWSError carrying that code and the
operation name immediately: exactly k + 1 attempts and exactly the k earlier
backoff sleeps happen, with no extra retry and no extra sleep. -/
theorem nonretryable_error_immediate (maxRetries retryDelay : Nat)
    (expBackoff : Bool) (opName : String) (func : Nat → AttemptOutcome)
    (k : Nat) (code msg : String)
    (hk : k ≤ maxRetries)
    (hbefore : ∀ i, i < k → (func i).isRetryableFailure)
    (hcall : func k = .clientError code msg)
    (hcode : code ∉ retryableCodes) :
    execute_with_retry maxRetries retryDelay expBackoff opName func
      = { attempts := k + 1,
          sleeps := (List.range k).map
            (fun n => retryDelayFor retryDelay expBackoff (n + 1)),
          result := some { message := msg, code := some code, operation := opName } } := by
  suffices h : ∀ (fuel retries : Nat) (sleeps : List Nat) (lastExc : Option AWSErrorInfo),
      retries + fuel = maxRetries + 1 → retries ≤ k → sleeps.length = retries →
      retryLoop retryDelay expBackoff opName func fuel retries sleeps lastExc
        = { attempts := k + 1,
            sleeps := sleeps ++ (List.range (k - retries)).map
              (fun n => retryDelayFor retryDelay expBackoff (retries + n + 1)),
            result := some { message := msg, code := some code, operation := opName } } by
    have hfin := h (maxRetries + 1) 0 [] none (by omega) (by omega) rfl
    simp only [execute_with_retry, hfin]
    congr 1
    simp only [Nat.sub_zero, List.nil_append]
    exact List.map_congr_left (fun n _ => by rw [Nat.zero_add])
  intro fuel
  induction fuel with
  | zero =>
    intro retries sleeps lastExc hsum hret _
    omega
  | succ f ih =>
    intro retries sleeps lastExc hsum hret hlen
    rcases Nat.lt_or_ge retries k with hlt | hge
    · have hrf := hbefore retries hlt
      cases hfunc : func retries with
      | ok =>
        rw [hfunc] at hrf
        simp [AttemptOutcome.isRetryableFailure] at hrf
      | otherError m =>
        rw [hfunc] at hrf
        simp [AttemptOutcome.isRetryableFailure] at hrf
      | clientError c m =>
        rw [hfunc] at hrf
        simp only [AttemptOutcome.isRetryableFailure] at hrf
        simp only [retryLoop, hfunc, if_pos hrf]
        rw [ih (retries + 1) _ _ (by omega) (by omega) (by simp [hlen])]
        refine congrArg₂ _ ?_ rfl
        rw [List.append_assoc, List.singleton_append,
          backoff_schedule_shift (retryDelayFor retryDelay expBackoff) retries k hlt]
      | connError m =>
        simp only [retryLoop, hfunc]
        rw [ih (retries + 1) _ _ (by omega) (by omega) (by simp [hlen])]
        refine congrArg₂ _ ?_ rfl
        rw [List.append_assoc, List.singleton_append,
          backoff_schedule_shift (retryDelayFor retryDelay expBackoff) retries k hlt]
    · have hkr : retries = k := by omega
      subst hkr
      simp only [retryLoop, hcall, if_neg hcode]
      simp

/-- Witness for claim C2 at a concrete input: a call whose first execution
fails with AccessDenied raises at once, with one attempt and no sleep. -/
theorem nonretryable_error_immediate_witness :
    execute_with_retry 5 1 true "delete_object"
        (fun _ => .clientError "AccessDenied" "denied")
      = { attempts := 1, sleeps := [],
          result := some { message := "denied", code := some "AccessDenied",
                           operation := "delete_object" } } :=
  nonretryable_error_immediate 5 1 true "delete_object"
    (fun _ => .clientError "AccessDenied" "denied") 0 "AccessDenied" "denied"
    (by omega) (fun i h => absurd h (by omega)) rfl (by decide)

/-- One raw entry of a list_objects_v2 response Contents array, with the
fields read by list_objects (aws_client.py, lines 498-506). -/
structure S3ObjectRaw where
  key : String
  size : Nat
  lastModified : String
  etag : String
  storageClass : String
deriving DecidableEq, Repr

/-- One page returned by the backend list_objects_v2 call: Contents,
CommonPrefixes (their Prefix fields), IsTruncated, NextContinuationToken. -/
structure ListingPage where
  contents : List S3ObjectRaw
  commonPrefixes : List String
  isTruncated : Bool
  nextContinuationToken : Option String
deriving DecidableEq, Repr

/-- The dict appended to all_objects for each Contents entry
(aws_client.py, lines 498-506). -/
structure ObjEntry where
  key : String
  size : Nat
  last_modified : String
  etag : String
  storage_class : String
  is_directory : Bool
deriving DecidableEq, Repr

/-- The dict appended to all_prefixes for each kept CommonPrefixes entry
(aws_client.py, lines 513-516); pfx models the dict key named after the
query-prefix parameter. -/
structure DirEntry where
  pfx : String
  name : String
deriving DecidableEq, Repr

/-- Python str.strip applied with the double-quote character, as used on the
ETag field (aws_client.py, line 503). -/
def stripQuotes (s : String) : String :=
  String.mk (((s.toList.dropWhile (· == '\"')).reverse.dropWhile (· == '\"')).reverse)

/-- Python str.rstrip applied with the slash character. -/
def rstripSlash (s : String) : String :=
  String.mk ((s.toList.reverse.dropWhile (· == '/')).reverse)

/-- The name computed for a directory entry (aws_client.py, line 515). -/
def dirEntryName (p : String) : String :=
  if p.toList.contains '/' then
    ((rstripSlash p).split (· == '/')).getLastD ""
  else rstripSlash p

/-- Processing of one Contents entry (aws_client.py, lines 498-506). -/
def processObject (o : S3ObjectRaw) : ObjEntry :=
  { key := o.key, size := o.size, last_modified := o.lastModified,
    etag := stripQuotes o.etag, storage_class := o.storageClass,
    is_directory := o.key.endsWith "/" }

theorem processObject_key (o : S3ObjectRaw) : (processObject o).key = o.key := rfl

/-- Processing of the CommonPrefixes of one page (aws_client.py, lines
509-516): an entry is kept only when non-empty and different from the queried
prefix string qp. -/
def processPrefixes (qp : String) (ps : List String) : List DirEntry :=
  (ps.filter (fun p => p != "" && p != qp)).map
    (fun p => { pfx := p, name := dirEntryName p })

/-- Python truthiness of the value read from NextContinuationToken. -/
def isTruthy : Option String → Bool
  | none => false
  | some s => s != ""

/-- The pagination while-loop of list_objects (aws_client.py, lines 483-523),
returning (all_objects, all_prefixes, trace of ContinuationToken values sent).
fetch t is the page the backend returns for a request whose ContinuationToken
parameter is t (none on the first request).  The loop breaks when the page is
not truncated or page_count >= max_pages; since page_count is incremented at
the top of each iteration, we carry fuel = max_pages - 1 - (page_count before
the increment), so the counter part of the break test is exactly fuel = 0.
paramsTok is the ContinuationToken currently stored in params: the source only
overwrites it when the new continuation_token is truthy (line 487), so both
arms update it the same way before fetching and processing the page. -/
def listLoop (fetch : Option String → ListingPage) (qp : String) :
    Nat → Option String → Option String →
    List ObjEntry × List DirEntry × List (Option String)
  | 0, paramsTok, contTok =>
    let pt := if isTruthy contTok then contTok else paramsTok
    let page := fetch pt
    (page.contents.map processObject, processPrefixes qp page.commonPrefixes, [pt])
  | fuel + 1, paramsTok, contTok =>
    let pt := if isTruthy contTok then contTok else paramsTok
    let page := fetch pt
    if page.isTruncated then
      let rest := listLoop fetch qp fuel pt page.nextContinuationToken
      (page.contents.map processObject ++ rest.1,
       processPrefixes qp page.commonPrefixes ++ rest.2.1,
       pt :: rest.2.2)
    else
      (page.contents.map processObject, processPrefixes qp page.commonPrefixes, [pt])

/-- Result dict of list_objects (aws_client.py, lines 527-532); currentPfx
models the dict entry holding the queried prefix. -/
structure ListObjectsResult where
  objects : List ObjEntry
  prefixes : List DirEntry
  bucket : String
  currentPfx : String
deriving DecidableEq, Repr

/-- AWSClient.list_objects (aws_client.py, lines 460-543).  The delimiter is
part of the fixed request params absorbed into fetch. -/
def list_objects (fetch : Option String → ListingPage) (maxPages : Nat)
    (bucket qp : String) : ListObjectsResult :=
  let r := listLoop fetch qp (maxPages - 1) none none
  { objects := r.1, prefixes := r.2.1, bucket := bucket, currentPfx := qp }

/-- The sequence of ContinuationToken values sent to the backend, in request
order, during one list_objects call. -/
def listTrace (fetch : Option String → ListingPage) (maxPages : Nat)
    (qp : String) : List (Option String) :=
  (listLoop fetch qp (maxPages - 1) none none).2.2

theorem listLoop_succ_of_trunc (fetch : Option String → ListingPage)
    (qp : String) (f : Nat) (paramsTok contTok : Option String)
    (htr : (fetch (if isTruthy contTok then contTok else paramsTok)).isTruncated = true) :
    listLoop fetch qp (f + 1) paramsTok contTok
      = ((fetch (if isTruthy contTok then contTok else paramsTok)).contents.map processObject
          ++ (listLoop fetch qp f (if isTruthy contTok then contTok else paramsTok)
              (fetch (if isTruthy contTok then contTok else paramsTok)).nextContinuationToken).1,
         processPrefixes qp (fetch (if isTruthy contTok then contTok else paramsTok)).commonPrefixes
          ++ (listLoop fetch qp f (if isTruthy contTok then contTok else paramsTok)
              (fetch (if isTruthy contTok then contTok else paramsTok)).nextContinuationToken).2.1,
         (if isTruthy contTok then contTok else paramsTok)
          :: (listLoop fetch qp f (if isTruthy contTok then contTok else paramsTok)
              (fetch (if isTruthy contTok then contTok else paramsTok)).nextContinuationToken).2.2) := by
  simp only [listLoop, htr, if_true]

theorem listLoop_succ_of_not_trunc (fetch : Option String → ListingPage)
    (qp : String) (f : Nat) (paramsTok contTok : Option String)
    (htr : ¬ (fetch (if isTruthy contTok then contTok else paramsTok)).isTruncated = true) :
    listLoop fetch qp (f + 1) paramsTok contTok
      = ((fetch (if isTruthy contTok then contTok else paramsTok)).contents.map processObject,
         processPrefixes qp (fetch (if isTruthy contTok then contTok else paramsTok)).commonPrefixes,
         [if isTruthy contTok then contTok else paramsTok]) := by
  simp only [listLoop]
  rw [if_neg htr]

theorem get_zero_of_head?_eq {α : Type} {l : List α} {x : α}
    (h : l.head? = some x) (h0 : 0 < l.length) : l.get ⟨0, h0⟩ = x := by
  cases l with
  | nil => simp at h0
  | cons a as =>
    simp only [List.head?_cons, Option.some.injEq] at h
    simpa using h

/-- Induction workhorse for the pagination loop: trace length is bounded by
fuel + 1, the first request carries the updated params token, consecutive
requests are chained through NextContinuationToken, and the merged objects and
directory entries are the concatenations of the per-page results in request
order. -/
theorem listLoop_spec (fetch : Option String → ListingPage) (qp : String)
    (htok : ∀ t, (fetch t).isTruncated = true →
      isTruthy (fetch t).nextContinuationToken = true) :
    ∀ (fuel : Nat) (paramsTok contTok : Option String),
      ((listLoop fetch qp fuel paramsTok contTok).2.2).length ≤ fuel + 1 ∧
      ((listLoop fetch qp fuel paramsTok contTok).2.2).head?
        = some (if isTruthy contTok then contTok else paramsTok) ∧
      (∀ i (h : i + 1 < ((listLoop fetch qp fuel paramsTok contTok).2.2).length),
        ((listLoop fetch qp fuel paramsTok contTok).2.2).get ⟨i + 1, h⟩
          = (fetch (((listLoop fetch qp fuel paramsTok contTok).2.2).get
              ⟨i, Nat.lt_of_succ_lt h⟩)).nextContinuationToken) ∧
      (listLoop fetch qp fuel paramsTok contTok).1
        = (((listLoop fetch qp fuel paramsTok contTok).2.2).map
            (fun t => (fetch t).contents.map processObject)).flatten ∧
      (listLoop fetch qp fuel paramsTok contTok).2.1
        = (((listLoop fetch qp fuel paramsTok contTok).2.2).map
            (fun t => processPrefixes qp (fetch t).commonPrefixes)).flatten := by
  intro fuel
  induction fuel with
  | zero =>
    intro paramsTok contTok
    simp only [listLoop]
    refine ⟨by simp, by simp, ?_, by simp, by simp⟩
    intro i h
    simp at h
  | succ f ih =>
    intro paramsTok contTok
    by_cases htr : (fetch (if isTruthy contTok then contTok else paramsTok)).isTruncated = true
    · rw [listLoop_succ_of_trunc fetch qp f paramsTok contTok htr]
      set pt := if isTruthy contTok then contTok else paramsTok with hpt
      have hrec := ih pt (fetch pt).nextContinuationToken
      refine ⟨by simpa using Nat.succ_le_succ hrec.1, by simp, ?_, ?_, ?_⟩
      · intro i h
        cases i with
        | zero =>
          have h0 : 0 < ((listLoop fetch qp f pt
              (fetch pt).nextContinuationToken).2.2).length := by
            simpa using Nat.lt_of_succ_lt_succ h
          have hhead := hrec.2.1
          rw [htok pt htr] at hhead
          simp only [if_true] at hhead
          simp only [List.get_cons_succ, List.get_cons_zero]
          exact get_zero_of_head?_eq hhead h0
        | succ j =>
          have h' : j + 1 < ((listLoop fetch qp f pt
              (fetch pt).nextContinuationToken).2.2).length := by
            simpa using Nat.lt_of_succ_lt_succ h
          simp only [List.get_cons_succ]
          exact hrec.2.2.1 j h'
      · simp [hrec.2.2.2.1]
      · simp [hrec.2.2.2.2]
    · rw [listLoop_succ_of_not_trunc fetch qp f paramsTok contTok htr]
      refine ⟨by simp, by simp, ?_, by simp, by simp⟩
      intro i h
      simp at h

/-- Claim C3: list_objects fetches pages sequentially — the first request
carries no continuation token and each following request carries the
NextContinuationToken returned by the previous page — fetches at most
max_pages pages, and returns exactly the concatenation of all fetched pages
object entries in page order; when the keys across the fetched pages are
pairwise distinct the returned keys contain no duplicates. -/
theorem list_objects_pagination (fetch : Option String → ListingPage)
    (maxPages : Nat) (bucket qp : String)
    (hmp : 1 ≤ maxPages)
    (htok : ∀ t, (fetch t).isTruncated = true →
      isTruthy (fetch t).nextContinuationToken = true) :
    (listTrace fetch maxPages qp).length ≤ maxPages ∧
    (listTrace fetch maxPages qp).head? = some none ∧
    (∀ i (h : i + 1 < (listTrace fetch maxPages qp).length),
      (listTrace fetch maxPages qp).get ⟨i + 1, h⟩
        = (fetch ((listTrace fetch maxPages qp).get
            ⟨i, Nat.lt_of_succ_lt h⟩)).nextContinuationToken) ∧
    (list_objects fetch maxPages bucket qp).objects
      = ((listTrace fetch maxPages qp).map
          (fun t => (fetch t).contents.map processObject)).flatten ∧
    (((listTrace fetch maxPages qp).map
        (fun t => (fetch t).contents.map S3ObjectRaw.key)).flatten.Nodup →
      ((list_objects fetch maxPages bucket qp).objects.map ObjEntry.key).Nodup) := by
  have h := listLoop_spec fetch qp htok (maxPages - 1) none none
  refine ⟨?_, ?_, h.2.2.1, h.2.2.2.1, ?_⟩
  · have h1 := h.1
    have : (maxPages - 1) + 1 = maxPages := by omega
    rw [this] at h1
    exact h1
  · exact h.2.1
  · intro hnd
    have hkeys : (list_objects fetch maxPages bucket qp).objects.map ObjEntry.key
        = ((listTrace fetch maxPages qp).map
            (fun t => (fetch t).contents.map S3ObjectRaw.key)).flatten := by
      have hobj : (list_objects fetch maxPages bucket qp).objects
          = ((listTrace fetch maxPages qp).map
              (fun t => (fetch t).contents.map processObject)).flatten := h.2.2.2.1
      rw [hobj, List.map_flatten, List.map_map]
      refine congrArg _ (List.map_congr_left (fun t _ => ?_))
      simp [Function.comp, List.map_map, processObject_key]
    rw [hkeys]
    exact hnd

/-- First backend page of the concrete two-page listing scenario. -/
def page1W : ListingPage :=
  { contents := [⟨"a/x", 1, "2024-01-01", "e1", "STANDARD"⟩],
    commonPrefixes := ["a/b/"],
    isTruncated := true, nextContinuationToken := some "T1" }

/-- Second backend page of the concrete two-page listing scenario. -/
def page2W : ListingPage :=
  { contents := [⟨"a/y", 2, "2024-01-02", "e2", "STANDARD"⟩],
    commonPrefixes := [],
    isTruncated := false, nextContinuationToken := some "T2" }

/-- Concrete backend: first request returns page1W, any continued request
returns page2W. -/
def fetchW : Option String → ListingPage :=
  fun t => if t = none then page1W else page2W

/-- Witness for claim C3 at a concrete two-page backend. -/
theorem list_objects_pagination_witness :
    (listTrace fetchW 20 "a/").length ≤ 20 ∧
    (list_objects fetchW 20 "bkt" "a/").objects
      = ((listTrace fetchW 20 "a/").map
          (fun t => (fetchW t).contents.map processObject)).flatten := by
  have h := list_objects_pagination fetchW 20 "bkt" "a/" (by omega)
    (by intro t _; unfold fetchW; split <;> decide)
  exact ⟨h.1, h.2.2.2.1⟩

/-- A backend page whose Contents and CommonPrefixes both hold exactly the
queried prefix docs/ itself. -/
def fetch9 : Option String → ListingPage :=
  fun _ => { contents := [⟨"docs/", 0, "2024-01-01", "e", "STANDARD"⟩],
             commonPrefixes := ["docs/"],
             isTruncated := false, nextContinuationToken := none }

/-- Counterexample to claim C9 as stated: listing with queried prefix docs/
returns an object entry whose key is exactly docs/ — the self-reference is
excluded from the directory prefixes but NOT from the objects (the Contents
processing at aws_client.py lines 497-506 has no such filter). -/
theorem self_reference_objects_counterexample :
    ((list_objects fetch9 20 "bkt" "docs/").objects.map ObjEntry.key) = ["docs/"] ∧
    (list_objects fetch9 20 "bkt" "docs/").prefixes = [] ∧
    (list_objects fetch9 20 "bkt" "docs/").currentPfx = "docs/" := by
  refine ⟨rfl, rfl, rfl⟩

theorem mem_processPrefixes {qp : String} {ps : List String} {d : DirEntry}
    (hd : d ∈ processPrefixes qp ps) : d.pfx ≠ qp ∧ d.pfx ≠ "" := by
  simp only [processPrefixes, List.mem_map, List.mem_filter] at hd
  obtain ⟨p, ⟨_, hp⟩, rfl⟩ := hd
  simp only [Bool.and_eq_true, bne_iff_ne, ne_eq] at hp
  exact ⟨hp.2, hp.1⟩

theorem listLoop_prefixes_mem (fetch : Option String → ListingPage)
    (qp : String) :
    ∀ (fuel : Nat) (paramsTok contTok : Option String) (d : DirEntry),
      d ∈ (listLoop fetch qp fuel paramsTok contTok).2.1 →
      d.pfx ≠ qp ∧ d.pfx ≠ "" := by
  intro fuel
  induction fuel with
  | zero =>
    intro paramsTok contTok d hd
    simp only [listLoop] at hd
    exact mem_processPrefixes hd
  | succ f ih =>
    intro paramsTok contTok d hd
    by_cases htr : (fetch (if isTruthy contTok then contTok else paramsTok)).isTruncated = true
    · rw [listLoop_succ_of_trunc fetch qp f paramsTok contTok htr] at hd
      simp only [List.mem_append] at hd
      rcases hd with hd | hd
      · exact mem_processPrefixes hd
      · exact ih _ _ d hd
    · rw [listLoop_succ_of_not_trunc fetch qp f paramsTok contTok htr] at hd
      exact mem_processPrefixes hd

/-- Claim C9 (amended): the self-reference filter applies to the directory
prefixes only — every returned directory entry differs from the queried
prefix (and is non-empty) — while Contents entries are returned unfiltered,
so an object entry whose key equals the queried prefix may appear among the
returned objects. -/
theorem self_reference_filter_prefixes (fetch : Option String → ListingPage)
    (maxPages : Nat) (bucket qp : String) (d : DirEntry)
    (hd : d ∈ (list_objects fetch maxPages bucket qp).prefixes) :
    d.pfx ≠ qp ∧ d.pfx ≠ "" :=
  listLoop_prefixes_mem fetch qp (maxPages - 1) none none d hd

/-- A backend page with one genuine sub-directory below the queried prefix. -/
def fetch9b : Option String → ListingPage :=
  fun _ => { contents := [], commonPrefixes := ["docs/a/"],
             isTruncated := false, nextContinuationToken := none }

/-- Witness for the amended claim C9 at a concrete input. -/
theorem self_reference_filter_witness :
    (DirEntry.mk "docs/a/" (dirEntryName "docs/a/")).pfx ≠ "docs/" ∧
    (DirEntry.mk "docs/a/" (dirEntryName "docs/a/")).pfx ≠ "" :=
  self_reference_filter_prefixes fetch9b 20 "bkt" "docs/"
    ⟨"docs/a/", dirEntryName "docs/a/"⟩ (List.mem_singleton.mpr rfl)

/-- One invocation of the worker-level progress callback
(UploadWorker.run lines 235-263 / DownloadWorker.run lines 325-353):
cancelled is the value read from self.is_cancelled(), bytes is bytes_amount,
timeOk records whether current_time - last_reported_time >= 0.2 held. -/
structure ProgressEvent where
  cancelled : Bool
  bytes : Nat
  timeOk : Bool
deriving DecidableEq, Repr

/-- Mutable worker state read by the callback: uploaded_bytes (resp.
downloaded_bytes) and last_progress_value. -/
structure CbState where
  transferred : Nat
  lastProgress : Nat
deriving DecidableEq, Repr

/-- One execution of the worker progress callback body; the returned option is
the progress percentage emitted through signals.progress, if any.  The source
computes progress = min(99, int(bytes * 100 / file_size)) and emits only when
it differs from last_progress_value and the 0.2 s threshold passed; both
UploadWorker.run and DownloadWorker.run contain this code verbatim. -/
def workerCallbackStep (fileSize : Nat) (s : CbState) (e : ProgressEvent) :
    CbState × Option Nat :=
  if e.cancelled then (s, none)
  else
    let tr := s.transferred + e.bytes
    if 0 < fileSize then
      let progress := min 99 (tr * 100 / fileSize)
      if progress ≠ s.lastProgress ∧ e.timeOk = true then
        ({ transferred := tr, lastProgress := progress }, some progress)
      else
        ({ transferred := tr, lastProgress := s.lastProgress }, none)
    else ({ transferred := tr, lastProgress := s.lastProgress }, none)

/-- The percentages emitted by the progress callback over a sequence of
backend callback invocations. -/
def runCallbacks (fileSize : Nat) : CbState → List ProgressEvent → List Nat
  | _, [] => []
  | s, e :: es =>
    match workerCallbackStep fileSize s e with
    | (s', some p) => p :: runCallbacks fileSize s' es
    | (s', none) => runCallbacks fileSize s' es

/-- All percentages emitted by UploadWorker.run (workers.py, lines 213-283)
in order: the two initial 0 emissions (lines 220 and 228), the callback
emissions, and the final forced 100 (line 278) emitted only when upload_file
returned True and the worker was not cancelled (finalSuccess). -/
def uploadWorkerEmissions (fileSize : Nat) (events : List ProgressEvent)
    (finalSuccess : Bool) : List Nat :=
  0 :: 0 :: (runCallbacks fileSize ⟨0, 0⟩ events
    ++ if finalSuccess then [100] else [])

/-- All percentages emitted by DownloadWorker.run (workers.py, lines 299-372):
the initial 0 (line 306), a second 0 when get_object_metadata succeeded
(line 315, in which case file_size is the metadata size, else 0), the callback
emissions, and the final forced 100 (line 367) only on success. -/
def downloadWorkerEmissions (metadataSize : Option Nat)
    (events : List ProgressEvent) (finalSuccess : Bool) : List Nat :=
  0 :: ((match metadataSize with | some _ => [0] | none => [])
    ++ (runCallbacks (metadataSize.getD 0) ⟨0, 0⟩ events
      ++ if finalSuccess then [100] else []))

theorem workerCallbackStep_cancelled {fileSize : Nat} {s : CbState}
    {e : ProgressEvent} (hc : e.cancelled = true) :
    workerCallbackStep fileSize s e = (s, none) := by
  simp [workerCallbackStep, hc]

theorem workerCallbackStep_emit {fileSize : Nat} {s : CbState}
    {e : ProgressEvent} (hc : e.cancelled = false) (hfs : 0 < fileSize)
    (hem : min 99 ((s.transferred + e.bytes) * 100 / fileSize) ≠ s.lastProgress
      ∧ e.timeOk = true) :
    workerCallbackStep fileSize s e
      = (⟨s.transferred + e.bytes,
          min 99 ((s.transferred + e.bytes) * 100 / fileSize)⟩,
         some (min 99 ((s.transferred + e.bytes) * 100 / fileSize))) := by
  simp [workerCallbackStep, hc, hfs, hem]

theorem workerCallbackStep_skip {fileSize : Nat} {s : CbState}
    {e : ProgressEvent} (hc : e.cancelled = false) (hfs : 0 < fileSize)
    (hem : ¬ (min 99 ((s.transferred + e.bytes) * 100 / fileSize) ≠ s.lastProgress
      ∧ e.timeOk = true)) :
    workerCallbackStep fileSize s e
      = (⟨s.transferred + e.bytes, s.lastProgress⟩, none) := by
  simp [workerCallbackStep, hc, hfs, hem]

theorem workerCallbackStep_nosize {s : CbState} {e : ProgressEvent}
    (hc : e.cancelled = false) :
    workerCallbackStep 0 s e = (⟨s.transferred + e.bytes, s.lastProgress⟩, none) := by
  simp [workerCallbackStep, hc]

theorem runCallbacks_cons_emit {fileSize : Nat} {s s' : CbState} {p : Nat}
    {e : ProgressEvent} (es : List ProgressEvent)
    (h : workerCallbackStep fileSize s e = (s', some p)) :
    runCallbacks fileSize s (e :: es) = p :: runCallbacks fileSize s' es := by
  rw [runCallbacks, h]

theorem runCallbacks_cons_none {fileSize : Nat} {s s' : CbState}
    {e : ProgressEvent} (es : List ProgressEvent)
    (h : workerCallbackStep fileSize s e = (s', none)) :
    runCallbacks fileSize s (e :: es) = runCallbacks fileSize s' es := by
  rw [runCallbacks, h]

theorem runCallbacks_zero (events : List ProgressEvent) :
    ∀ s : CbState, runCallbacks 0 s events = [] := by
  induction events with
  | nil => intro s; rfl
  | cons e es ih =>
    intro s
    by_cases hc : e.cancelled = true
    · rw [runCallbacks_cons_none es (workerCallbackStep_cancelled hc)]
      exact ih s
    · rw [runCallbacks_cons_none es
        (workerCallbackStep_nosize (Bool.eq_false_iff.mpr hc))]
      exact ih _

/-- Emitted percentages are strictly increasing above the current
last_progress_value and bounded by 99, provided last_progress_value is below
the current clamped percentage (the invariant the worker maintains). -/
theorem runCallbacks_chain (fileSize : Nat) (hfs : 0 < fileSize) :
    ∀ (events : List ProgressEvent) (s : CbState),
      s.lastProgress ≤ min 99 (s.transferred * 100 / fileSize) →
      List.Chain' (· < ·) (s.lastProgress :: runCallbacks fileSize s events) ∧
      ∀ p ∈ runCallbacks fileSize s events, p ≤ 99 := by
  intro events
  induction events with
  | nil =>
    intro s _
    simp only [runCallbacks]
    exact ⟨List.chain'_singleton _, by simp⟩
  | cons e es ih =>
    intro s hs
    by_cases hc : e.cancelled = true
    · rw [runCallbacks_cons_none es (workerCallbackStep_cancelled hc)]
      exact ih s hs
    · have hc' : e.cancelled = false := Bool.eq_false_iff.mpr hc
      have hmono : min 99 (s.transferred * 100 / fileSize)
          ≤ min 99 ((s.transferred + e.bytes) * 100 / fileSize) :=
        min_le_min (le_refl _)
          (Nat.div_le_div_right (Nat.mul_le_mul_right _ (Nat.le_add_right _ _)))
      by_cases hem : min 99 ((s.transferred + e.bytes) * 100 / fileSize)
          ≠ s.lastProgress ∧ e.timeOk = true
      · rw [runCallbacks_cons_emit es (workerCallbackStep_emit hc' hfs hem)]
        have hlt : s.lastProgress
            < min 99 ((s.transferred + e.bytes) * 100 / fileSize) :=
          lt_of_le_of_ne (le_trans hs hmono) (Ne.symm hem.1)
        have hrec := ih ⟨s.transferred + e.bytes,
            min 99 ((s.transferred + e.bytes) * 100 / fileSize)⟩ (le_refl _)
        refine ⟨List.chain'_cons.mpr ⟨hlt, hrec.1⟩, ?_⟩
        intro p hp
        rcases List.mem_cons.mp hp with rfl | hp
        · exact min_le_left _ _
        · exact hrec.2 p hp
      · rw [runCallbacks_cons_none es (workerCallbackStep_skip hc' hfs hem)]
        exact ih ⟨s.transferred + e.bytes, s.lastProgress⟩ (le_trans hs hmono)

theorem callback_emissions_facts (fileSize : Nat) (events : List ProgressEvent) :
    List.Chain' (· < ·) (0 :: runCallbacks fileSize ⟨0, 0⟩ events) ∧
    ∀ p ∈ runCallbacks fileSize ⟨0, 0⟩ events, p ≤ 99 := by
  rcases Nat.eq_zero_or_pos fileSize with h | h
  · subst h
    rw [runCallbacks_zero]
    exact ⟨List.chain'_singleton _, by simp⟩
  · exact runCallbacks_chain fileSize h events ⟨0, 0⟩ (by simp)

theorem emissions_assembly (cbs tail : List Nat)
    (hch : List.Chain' (· < ·) (0 :: cbs)) (hb : ∀ p ∈ cbs, p ≤ 99)
    (htail : tail = [] ∨ tail = [100]) :
    List.Chain' (· ≤ ·) (0 :: (cbs ++ tail)) ∧
    ∀ p ∈ 0 :: (cbs ++ tail), p ≤ 100 := by
  have hchle : List.Chain' (· ≤ ·) (0 :: cbs) := hch.imp (fun _ _ h => le_of_lt h)
  have hlast : ∀ x ∈ (0 :: cbs).getLast?, x ≤ 99 := by
    intro x hx
    obtain ⟨hne, rfl⟩ := List.mem_getLast?_eq_getLast hx
    have hxmem := List.getLast_mem hne
    rcases List.mem_cons.mp hxmem with h0 | hxc
    · omega
    · exact hb _ hxc
  constructor
  · have hsh : (0 :: (cbs ++ tail)) = (0 :: cbs) ++ tail := by simp
    rw [hsh, List.chain'_append]
    refine ⟨hchle, ?_, ?_⟩
    · rcases htail with rfl | rfl <;> simp
    · intro x hx y hy
      rcases htail with rfl | rfl
      · simp at hy
      · simp only [List.head?_cons, Option.mem_def, Option.some.injEq] at hy
        have := hlast x hx
        omega
  · intro p hp
    rcases List.mem_cons.mp hp with rfl | hp
    · omega
    rcases List.mem_append.mp hp with hp | hp
    · have := hb p hp; omega
    · rcases htail with rfl | rfl
      · simp at hp
      · simp at hp; omega

/-- Claim C4: for both the upload and the download worker, the sequence of
emitted progress percentages is non-decreasing and bounded in [0, 100] (they
are Nat, hence at least 0); every percentage emitted before the transfer is
confirmed complete (the emissions of a run whose final forced emission has not
happened) is at most 99; and 100 appears in the emission sequence only when
the underlying transfer returned success. -/
theorem worker_progress_monotone (fileSize : Nat) (events : List ProgressEvent)
    (finalSuccess : Bool) (metadataSize : Option Nat)
    (dlEvents : List ProgressEvent) (dlSuccess : Bool) :
    List.Chain' (· ≤ ·) (uploadWorkerEmissions fileSize events finalSuccess) ∧
    (∀ p ∈ uploadWorkerEmissions fileSize events finalSuccess, p ≤ 100) ∧
    (∀ p ∈ uploadWorkerEmissions fileSize events false, p ≤ 99) ∧
    (100 ∈ uploadWorkerEmissions fileSize events finalSuccess →
      finalSuccess = true) ∧
    List.Chain' (· ≤ ·) (downloadWorkerEmissions metadataSize dlEvents dlSuccess) ∧
    (∀ p ∈ downloadWorkerEmissions metadataSize dlEvents dlSuccess, p ≤ 100) ∧
    (∀ p ∈ downloadWorkerEmissions metadataSize dlEvents false, p ≤ 99) ∧
    (100 ∈ downloadWorkerEmissions metadataSize dlEvents dlSuccess →
      dlSuccess = true) := by
  obtain ⟨hchU, hbU⟩ := callback_emissions_facts fileSize events
  obtain ⟨hchD, hbD⟩ := callback_emissions_facts (metadataSize.getD 0) dlEvents
  have htailU : (if finalSuccess then ([100] : List Nat) else []) = []
      ∨ (if finalSuccess then ([100] : List Nat) else []) = [100] := by
    cases finalSuccess <;> simp
  have htailD : (if dlSuccess then ([100] : List Nat) else []) = []
      ∨ (if dlSuccess then ([100] : List Nat) else []) = [100] := by
    cases dlSuccess <;> simp
  obtain ⟨hasmU, hallU⟩ := emissions_assembly _ _ hchU hbU htailU
  obtain ⟨hasmD, hallD⟩ := emissions_assembly _ _ hchD hbD htailD
  refine ⟨?_, ?_, ?_, ?_, ?_, ?_, ?_, ?_⟩
  · exact List.chain'_cons.mpr ⟨le_refl 0, hasmU⟩
  · intro p hp
    rcases List.mem_cons.mp hp with rfl | hp
    · omega
    · exact hallU p hp
  · intro p hp
    simp only [uploadWorkerEmissions, if_neg Bool.false_ne_true,
      List.append_nil, List.mem_cons] at hp
    rcases hp with rfl | rfl | hp
    · omega
    · omega
    · exact hbU p hp
  · intro h100
    cases hfs : finalSuccess with
    | true => rfl
    | false =>
      exfalso
      rw [hfs] at h100
      simp only [uploadWorkerEmissions, if_neg Bool.false_ne_true,
        List.append_nil, List.mem_cons] at h100
      rcases h100 with h | h | h
      · omega
      · omega
      · have := hbU 100 h; omega
  · cases metadataSize with
    | none =>
      simpa [downloadWorkerEmissions] using hasmD
    | some n =>
      exact List.chain'_cons.mpr ⟨le_refl 0, by simpa using hasmD⟩
  · intro p hp
    cases metadataSize with
    | none =>
      simp only [downloadWorkerEmissions, List.nil_append, List.mem_cons] at hp
      rcases hp with rfl | hp
      · omega
      · exact hallD p (List.mem_cons_of_mem 0 hp)
    | some n =>
      simp only [downloadWorkerEmissions, List.singleton_append,
        List.mem_cons] at hp
      rcases hp with rfl | rfl | hp
      · omega
      · omega
      · exact hallD p (List.mem_cons_of_mem 0 hp)
  · intro p hp
    cases metadataSize with
    | none =>
      simp only [downloadWorkerEmissions, if_neg Bool.false_ne_true,
        List.append_nil, List.nil_append, List.mem_cons] at hp
      rcases hp with rfl | hp
      · omega
      · exact hbD p hp
    | some n =>
      simp only [downloadWorkerEmissions, if_neg Bool.false_ne_true,
        List.append_nil, List.singleton_append, List.mem_cons] at hp
      rcases hp with rfl | rfl | hp
      · omega
      · omega
      · exact hbD p hp
  · intro h100
    cases hfs : dlSuccess with
    | true => rfl
    | false =>
      exfalso
      rw [hfs] at h100
      cases metadataSize with
      | none =>
        simp only [downloadWorkerEmissions, if_neg Bool.false_ne_true,
          List.append_nil, List.nil_append, List.mem_cons] at h100
        rcases h100 with h | h
        · omega
        · have := hbD 100 h; omega
      | some n =>
        simp only [downloadWorkerEmissions, if_neg Bool.false_ne_true,
          List.append_nil, List.singleton_append, List.mem_cons] at h100
        rcases h100 with h | h | h
        · omega
        · omega
        · have := hbD 100 h; omega

/-- How the backend transfer call inside download_file ends
(aws_client.py, line 713): it returns after writing the full object, or it
raises with some number of bytes already written to save_path. -/
inductive TransferEnd where
  | completed
  | failed (written : Nat)
deriving DecidableEq, Repr

/-- Result of download_file: a normal return carrying the boolean, or a raised
AWSError. -/
inductive DlResult where
  | ok (b : Bool)
  | err (e : AWSErrorInfo)
deriving DecidableEq, Repr

/-- AWSClient.download_file (aws_client.py, lines 642-769), abstracted over
the file system: the second component is the state of the local file at
save_path after the call (none = absent, some n = present with n bytes).
preexisting is the file state before the call; headSize is the ContentLength
from head_object, none when head_object raises; stopRequested is whether the
download stop event is set when the transfer returns (lines 721-728).
Removal of the local file (os.remove inside try/except at lines 723-727,
739-743 and 755-760) is modelled as succeeding. -/
def download_file (preexisting : Option Nat) (headSize : Option Nat)
    (tend : TransferEnd) (stopRequested : Bool) : DlResult × Option Nat :=
  match headSize with
  | none =>
    -- head_object raised; the generic handler removes any file at save_path
    -- and re-raises the AWSError (lines 752-769)
    (.err { message := "Download failed", code := none,
            operation := "download_file" },
     match preexisting with | some _ => none | none => none)
  | some size =>
    match tend with
    | .completed =>
      if stopRequested then
        -- cancelled: remove the downloaded file, return False (lines 721-728)
        (.ok false, none)
      else
        (.ok true, some size)
    | .failed _ =>
      -- transfer raised: remove the partial file, raise (lines 733-769)
      (.err { message := "Download failed", code := none,
              operation := "download_file" }, none)

/-- Claim C5: after download_file returns or raises, the local file at the
destination is either absent, or the call returned True and the file holds
the full object (the size head_object reported): no partial file remains on
cancellation or error. -/
theorem download_no_partial_file (preexisting headSize : Option Nat)
    (tend : TransferEnd) (stopRequested : Bool) :
    (download_file preexisting headSize tend stopRequested).2 = none ∨
    ((download_file preexisting headSize tend stopRequested).1 = .ok true ∧
     (download_file preexisting headSize tend stopRequested).2 = headSize) := by
  cases headSize with
  | none =>
    left
    cases preexisting <;> rfl
  | some size =>
    cases tend with
    | completed =>
      by_cases hs : stopRequested = true
      · left; simp [download_file, hs]
      · right
        have hs' : stopRequested = false := Bool.eq_false_iff.mpr hs
        simp [download_file, hs']
    | failed w => left; rfl

/-- State of the upload-side ProgressCallback object
(aws_client.py, lines 581-587). -/
structure UploadCbState where
  uploaded : Nat
  last_percent : Nat
deriving DecidableEq, Repr

/-- upload_file.ProgressCallback.__call__ (aws_client.py, lines 588-599).
cbFunc is the optional user callback; the result is none when the Python code
raises — which happens by ZeroDivisionError in
  percent = int(min(100, self.uploaded * 100 / self.total_size))
whenever total_size = 0, because this callback has no zero-size guard. -/
def uploadProgressCall (totalSize : Nat) (cbFunc : Option (Nat → Bool))
    (s : UploadCbState) (bytesAmount : Nat) :
    Option (UploadCbState × Bool) :=
  let uploaded := s.uploaded + bytesAmount
  if totalSize = 0 then
    none
  else
    let percent := min 100 (uploaded * 100 / totalSize)
    if s.last_percent < percent then
      match cbFunc with
      | some f =>
        if f percent then some (⟨uploaded, percent⟩, true)
        else some (⟨uploaded, percent⟩, false)
      | none => some (⟨uploaded, percent⟩, true)
    else some (⟨uploaded, s.last_percent⟩, true)

/-- State of the download-side ProgressCallback object, including the shared
stop event (aws_client.py, lines 681-687). -/
structure DownloadCbState where
  downloaded : Nat
  last_percent : Nat
  stopSet : Bool
deriving DecidableEq, Repr

/-- download_file.ProgressCallback.__call__ (aws_client.py, lines 689-704).
Unlike the upload side, the percentage is guarded:
  percent = int(min(100, ...)) if self.total_size else 0
so the division is skipped for a zero total size, and the stop event is
checked first so cancellation is honoured. -/
def downloadProgressCall (totalSize : Nat) (cbFunc : Option (Nat → Bool))
    (s : DownloadCbState) (bytesAmount : Nat) : DownloadCbState × Bool :=
  if s.stopSet then (s, false)
  else
    let downloaded := s.downloaded + bytesAmount
    let percent := if totalSize ≠ 0 then min 100 (downloaded * 100 / totalSize) else 0
    if s.last_percent < percent then
      match cbFunc with
      | some f =>
        if f percent then (⟨downloaded, percent, s.stopSet⟩, true)
        else (⟨downloaded, percent, true⟩, false)
      | none => (⟨downloaded, percent, s.stopSet⟩, true)
    else (⟨downloaded, s.last_percent, s.stopSet⟩, true)

/-- Claim C8 is right about the intent but the upload code violates it: with a
zero total size the upload-side callback divides by the zero total and raises
(ZeroDivisionError), while the download-side callback skips the percentage
math (its percent expression is guarded), never invokes the user callback
(percent stays 0, never above last_percent), and still honours cancellation
(stop event set forces an immediate False). -/
theorem zero_byte_progress_bug :
    uploadProgressCall 0 (some (fun _ => true)) ⟨0, 0⟩ 0 = none ∧
    downloadProgressCall 0 (some (fun _ => true)) ⟨0, 0, false⟩ 0
      = (⟨0, 0, false⟩, true) ∧
    (downloadProgressCall 0 (some (fun _ => true)) ⟨0, 0, true⟩ 5).2 = false := by
  refine ⟨rfl, rfl, rfl⟩

/-- For every zero-byte download, every callback invocation with the stop
event clear returns True without ever invoking the user callback, and every
invocation with the stop event set returns False: the division is skipped and
cancellation honoured, as the claim states for the download side. -/
theorem zero_byte_download_guarded (cbFunc : Option (Nat → Bool))
    (downloaded bytesAmount : Nat) (stop : Bool) :
    downloadProgressCall 0 cbFunc ⟨downloaded, 0, stop⟩ bytesAmount
      = if stop then (⟨downloaded, 0, stop⟩, false)
        else (⟨downloaded + bytesAmount, 0, stop⟩, true) := by
  cases stop <;> simp [downloadProgressCall]

/-- Consecutive slices objects[i:i+n] for i = 0, n, 2n, ... as produced by the
range-stepping loop of DeleteDirectoryWorker.run (workers.py, line 767);
structural fuel bounds the recursion by the list length. -/
def chunksGo (n : Nat) : Nat → List α → List (List α)
  | 0, _ => []
  | fuel + 1, l => if l.isEmpty then [] else l.take n :: chunksGo n fuel (l.drop n)

/-- The batches objects[0:n], objects[n:2n], ... of a key list. -/
def chunks (n : Nat) (l : List α) : List (List α) :=
  chunksGo n l.length l

theorem chunksGo_cons (n f : Nat) (l : List α) (h : l.isEmpty = false) :
    chunksGo n (f + 1) l = l.take n :: chunksGo n f (l.drop n) := by
  rw [chunksGo, h]
  simp

/-- Outcome of one DeleteDirectoryWorker.run execution over the listed keys:
the batch calls issued to the backend delete_objects, the final
deleted_objects counter, and whether the error signal was emitted. -/
structure DeleteDirOutcome (α : Type) where
  calls : List (List α)
  deleted : Nat
  errorReported : Bool
deriving DecidableEq, Repr

/-- The batch loop of DeleteDirectoryWorker.run (workers.py, lines 765-795):
each batch is sent through delete_objects; on success deleted_objects grows by
the batch size and the loop continues; on an exception the error signal is
emitted and the method returns, so no later batch is issued.  ok b tells
whether the backend call for batch b succeeds.  d is the current
deleted_objects counter. -/
def deleteDirGo (ok : List α → Bool) : List (List α) → Nat → DeleteDirOutcome α
  | [], d => ⟨[], d, false⟩
  | b :: bs, d =>
    if ok b then
      let r := deleteDirGo ok bs (d + b.length)
      ⟨b :: r.calls, r.deleted, r.errorReported⟩
    else ⟨[b], d, true⟩

/-- DeleteDirectoryWorker.run (workers.py, lines 739-805) after the listing
step, on the listed object keys, for a worker that is never cancelled: an
empty listing short-circuits with success (lines 751-755); otherwise the keys
are deleted in batches of batch_size = 1000 (line 766). -/
def deleteDirRun (ok : List α → Bool) (objects : List α) : DeleteDirOutcome α :=
  if objects.isEmpty then ⟨[], 0, false⟩
  else deleteDirGo ok (chunks 1000 objects) 0

theorem chunksGo_join (n : Nat) (hn : 0 < n) :
    ∀ (fuel : Nat) (l : List α), l.length ≤ fuel →
      (chunksGo n fuel l).flatten = l ∧
      (∀ c ∈ chunksGo n fuel l, c.length ≤ n) := by
  intro fuel
  induction fuel with
  | zero =>
    intro l hl
    have : l = [] := List.eq_nil_of_length_eq_zero (by omega)
    subst this
    exact ⟨rfl, by simp [chunksGo]⟩
  | succ f ih =>
    intro l hl
    by_cases hno : l.isEmpty
    · rw [List.isEmpty_iff] at hno
      subst hno
      exact ⟨rfl, by simp [chunksGo]⟩
    · have hne : ¬ l.isEmpty = true := hno
      have hlen : (l.drop n).length ≤ f := by
        rw [List.length_drop]
        have : l.length ≠ 0 := by
          simpa [List.isEmpty_iff, List.length_eq_zero] using hno
        omega
      obtain ⟨hj, hb⟩ := ih (l.drop n) hlen
      constructor
      · simp only [chunksGo, if_neg hne, List.flatten_cons, hj,
          List.take_append_drop]
      · intro c hc
        simp only [chunksGo, if_neg hne, List.mem_cons] at hc
        rcases hc with rfl | hc
        · rw [List.length_take]
          exact min_le_left _ _
        · exact hb c hc

theorem chunksGo_length_1000 :
    ∀ (fuel : Nat) (l : List α), l.length ≤ fuel →
      (chunksGo 1000 fuel l).length = (l.length + 999) / 1000 := by
  intro fuel
  induction fuel with
  | zero =>
    intro l hl
    have : l = [] := List.eq_nil_of_length_eq_zero (by omega)
    subst this
    simp [chunksGo]
  | succ f ih =>
    intro l hl
    by_cases hno : l.isEmpty
    · rw [List.isEmpty_iff] at hno
      subst hno
      simp [chunksGo]
    · have hne : ¬ l.isEmpty = true := hno
      have hpos : l.length ≠ 0 := by
        simpa [List.isEmpty_iff, List.length_eq_zero] using hno
      have hlen : (l.drop 1000).length ≤ f := by
        rw [List.length_drop]; omega
      have hr := ih (l.drop 1000) hlen
      simp only [chunksGo, if_neg hne, List.length_cons, hr, List.length_drop]
      omega

theorem chunks_join (l : List α) : (chunks 1000 l).flatten = l :=
  (chunksGo_join 1000 (by omega) l.length l (le_refl _)).1

theorem chunks_sizes (l : List α) : ∀ c ∈ chunks 1000 l, c.length ≤ 1000 :=
  (chunksGo_join 1000 (by omega) l.length l (le_refl _)).2

theorem chunks_length (l : List α) :
    (chunks 1000 l).length = (l.length + 999) / 1000 :=
  chunksGo_length_1000 l.length l (le_refl _)

/-- If the first K batches succeed and the K-th (0-based) fails, the loop
issues exactly the first K + 1 batches, reports the error, and the deleted
counter is the total size of the K successful batches. -/
theorem deleteDirGo_spec (ok : List α → Bool) :
    ∀ (bs : List (List α)) (K d : Nat) (hK : K < bs.length),
      (∀ i (h : i < K), ok (bs.get ⟨i, lt_trans h hK⟩) = true) →
      ok (bs.get ⟨K, hK⟩) = false →
      deleteDirGo ok bs d
        = ⟨bs.take (K + 1),
           d + (((bs.take K).map List.length).sum),
           true⟩ := by
  intro bs
  induction bs with
  | nil =>
    intro K d hK
    simp at hK
  | cons b bs ih =>
    intro K d hK hbefore hfail
    cases K with
    | zero =>
      simp only [List.get] at hfail
      simp [deleteDirGo, hfail]
    | succ k =>
      have hb0 : ok b = true := by
        have := hbefore 0 (Nat.succ_pos k)
        simpa using this
      have hK' : k < bs.length := Nat.lt_of_succ_lt_succ hK
      have hbefore' : ∀ i (h : i < k), ok (bs.get ⟨i, lt_trans h hK'⟩) = true := by
        intro i h
        have := hbefore (i + 1) (Nat.succ_lt_succ h)
        simpa using this
      have hfail' : ok (bs.get ⟨k, hK'⟩) = false := by
        simpa using hfail
      simp only [deleteDirGo, hb0, if_true]
      rw [ih k (d + b.length) hK' hbefore' hfail']
      simp only [List.take_succ_cons, List.map_cons, List.sum_cons,
        DeleteDirOutcome.mk.injEq]
      exact ⟨trivial, by omega, trivial⟩

/-- Claim C6: the directory delete issues the backend batch delete over
consecutive chunks of at most 1000 keys (the chunks concatenate back to the
key list, and a list of N keys yields ceil(N / 1000) batches, so 2500 keys
yield 3); if the K-th batch (0-based) is the first to fail, exactly the
batches up to and including the K-th are issued, the operation reports
failure, and the deleted counter equals the number of keys in the batches
that succeeded before it. -/
theorem delete_directory_batches (ok : List α → Bool) (keys : List α) (K : Nat)
    (hK : K < (chunks 1000 keys).length)
    (hbefore : ∀ i (h : i < K),
      ok ((chunks 1000 keys).get ⟨i, lt_trans h hK⟩) = true)
    (hfail : ok ((chunks 1000 keys).get ⟨K, hK⟩) = false) :
    (deleteDirRun ok keys).calls = (chunks 1000 keys).take (K + 1) ∧
    (deleteDirRun ok keys).errorReported = true ∧
    (deleteDirRun ok keys).deleted
      = (((chunks 1000 keys).take K).map List.length).sum ∧
    (∀ c ∈ (deleteDirRun ok keys).calls, c.length ≤ 1000) ∧
    (chunks 1000 keys).flatten = keys ∧
    (chunks 1000 keys).length = (keys.length + 999) / 1000 := by
  have hne : ¬ keys.isEmpty = true := by
    intro hempty
    rw [List.isEmpty_iff] at hempty
    subst hempty
    simp [chunks, chunksGo] at hK
  have hrun : deleteDirRun ok keys = deleteDirGo ok (chunks 1000 keys) 0 := by
    simp [deleteDirRun, hne]
  have hgo := deleteDirGo_spec ok (chunks 1000 keys) K 0 hK hbefore hfail
  rw [hrun, hgo]
  refine ⟨rfl, rfl, by simp, ?_, chunks_join keys, chunks_length keys⟩
  intro c hc
  exact chunks_sizes keys c (List.mem_of_mem_take hc)

/-- The 2500 keys of the concrete batch-delete scenario. -/
def keysW : List Nat := List.range 2500

/-- Concrete backend behaviour: only the batch starting at key 0 succeeds, so
the second batch (starting at key 1000) is the first failure. -/
def okW : List Nat → Bool := fun b => b.head? == some 0

/-- Witness for claim C6 at the concrete scenario from the spec: 2500 keys
form 3 batches; the 2nd batch fails, so exactly 2 batch calls are issued, the
error is reported, and deleted = 1000. -/
theorem delete_directory_batches_witness :
    (deleteDirRun okW keysW).calls.length = 2 ∧
    (deleteDirRun okW keysW).errorReported = true ∧
    (deleteDirRun okW keysW).deleted = 1000 ∧
    (chunks 1000 keysW).length = 3 := by
  have hlenW : keysW.length = 2500 := by simp [keysW]
  have hlen3 : (chunks 1000 keysW).length = 3 := by
    rw [chunks_length, hlenW]
  have h1 : 1 < (chunks 1000 keysW).length := by omega
  have hne1 : keysW.isEmpty = false := by
    simp [List.isEmpty_iff, ← List.length_eq_zero, hlenW]
  have hne2 : (keysW.drop 1000).isEmpty = false := by
    simp [List.isEmpty_iff, ← List.length_eq_zero, List.length_drop, hlenW]
  have e1 : (2500 : Nat) = 2499 + 1 := by norm_num
  have e2 : (2499 : Nat) = 2498 + 1 := by norm_num
  have hshape : chunks 1000 keysW
      = keysW.take 1000 :: ((keysW.drop 1000).take 1000
          :: chunksGo 1000 2498 ((keysW.drop 1000).drop 1000)) := by
    rw [chunks, hlenW, e1, chunksGo_cons 1000 2499 keysW hne1, e2,
      chunksGo_cons 1000 2498 (keysW.drop 1000) hne2]
  have hok0 : okW (keysW.take 1000) = true := by
    have hh : (keysW.take 1000).head? = some 0 := by
      rw [keysW, List.head?_take, if_neg (by norm_num),
        List.head?_eq_getElem?, List.getElem?_range (by norm_num)]
    simp [okW, hh]
  have hok1 : okW ((keysW.drop 1000).take 1000) = false := by
    have hh : ((keysW.drop 1000).take 1000).head? = some 1000 := by
      rw [keysW, List.head?_take, if_neg (by norm_num), List.head?_drop,
        List.getElem?_range (by norm_num)]
    simp [okW, hh]
  have hbef : ∀ i (h : i < 1),
      okW ((chunks 1000 keysW).get ⟨i, lt_trans h h1⟩) = true := by
    intro i h
    have hi : i = 0 := by omega
    subst hi
    rw [List.get_eq_getElem,
      ← List.getD_eq_getElem (chunks 1000 keysW) [] (lt_trans h h1),
      hshape, List.getD_cons_zero]
    exact hok0
  have hfail : okW ((chunks 1000 keysW).get ⟨1, h1⟩) = false := by
    rw [List.get_eq_getElem,
      ← List.getD_eq_getElem (chunks 1000 keysW) [] h1,
      hshape, show (1 : Nat) = 0 + 1 from rfl,
      List.getD_cons_succ, List.getD_cons_zero]
    exact hok1
  have h := delete_directory_batches okW keysW 1 h1 hbef hfail
  refine ⟨?_, h.2.1, ?_, hlen3⟩
  · rw [h.1, List.length_take]
    omega
  · rw [h.2.2.1, hshape]
    simp [List.length_take, hlenW]

/-- The state field of an operation dict in OperationsWindow
(operations_window.py, line 306: active, completed, failed). -/
inductive OpState where
  | active
  | completed
  | failed
deriving DecidableEq, Repr

/-- OperationsWindow.cancel_operation (operations_window.py, lines 473-495):
only operations whose state is active proceed; the state field is never
written (it stays active until the worker settles) and the boolean records
whether the operation_cancelled signal was emitted. -/
def cancel_operation (s : OpState) : OpState × Bool :=
  if s = .active then (s, true) else (s, false)

/-- The state assignment of OperationsWindow.complete_operation
(operations_window.py, lines 399-439): success sets completed, failure sets
failed — with no guard on the current state. -/
def complete_operation (s : OpState) (success : Bool) : OpState :=
  if success then .completed else .failed

/-- Hold for the terminal states of the operation table. -/
def OpState.isTerminal (s : OpState) : Prop :=
  s = .completed ∨ s = .failed

/-- An event delivered to the operations window for one operation: a
cancellation request or a completion notification. -/
inductive UiEvent where
  | cancelReq
  | complete (success : Bool)
deriving DecidableEq, Repr

/-- The state transition an event induces on one operation's state field. -/
def uiStep (s : OpState) : UiEvent → OpState
  | .cancelReq => (cancel_operation s).1
  | .complete success => complete_operation s success

/-- WorkerManager.cancel_worker (workers.py, lines 59-70): returns False when
the worker id is no longer among the active workers (terminal workers are
removed by _cleanup_worker as their finished/error signals fire). -/
def cancel_worker (activeWorkers : List String) (workerId : String) : Bool :=
  activeWorkers.contains workerId

/-- Counterexample to the general part of claim C7: complete_operation has no
terminal-state guard, so the event complete(success=False) delivered to an
operation already in the terminal state completed moves it to failed — a
subsequent event does move an operation out of a terminal state. -/
theorem terminal_state_counterexample :
    OpState.completed.isTerminal ∧
    uiStep OpState.completed (UiEvent.complete false) = OpState.failed ∧
    OpState.failed ≠ OpState.completed := by
  refine ⟨Or.inl rfl, rfl, by decide⟩

/-- Claim C7 (amended): requesting cancellation of an operation in a terminal
state is a no-op — cancel_operation leaves the state unchanged and emits
nothing, and cancel_worker returns false once the worker has been cleaned up —
but completion events are not guarded, so only cancellation events can never
move an operation out of a terminal state. -/
theorem cancel_terminal_noop (s : OpState) (hs : s.isTerminal)
    (activeWorkers : List String) (workerId : String)
    (hw : ¬ workerId ∈ activeWorkers) :
    cancel_operation s = (s, false) ∧
    uiStep s UiEvent.cancelReq = s ∧
    cancel_worker activeWorkers workerId = false := by
  have hsa : s ≠ .active := by
    rcases hs with rfl | rfl <;> simp
  refine ⟨by simp [cancel_operation, hsa], by simp [uiStep, cancel_operation, hsa], ?_⟩
  simpa [cancel_worker] using hw

/-- Witness for the amended claim C7 at a concrete input. -/
theorem cancel_terminal_noop_witness :
    cancel_operation OpState.completed = (OpState.completed, false) ∧
    uiStep OpState.completed UiEvent.cancelReq = OpState.completed ∧
    cancel_worker [] "op-1" = false :=
  cancel_terminal_noop OpState.completed (Or.inl rfl) [] "op-1" (by simp)

/-- The keyword parameter names accepted by AWSClient.list_objects
(aws_client.py, line 460: bucket, prefix, delimiter). -/
def listObjectsKwargNames : List String :=
  ["bucket", "prefix", "delimiter"]

/-- Result of a Python call: the value, or a TypeError raised at binding time
because a keyword argument name is not among the callee's parameters. -/
inductive PyCallResult (α : Type) where
  | ok (a : α)
  | typeError
deriving DecidableEq, Repr

/-- A Python-level call of AWSClient.list_objects with extra keyword argument
names: binding raises TypeError unless every keyword name is a parameter. -/
def call_list_objects (fetch : Option String → ListingPage) (maxPages : Nat)
    (bucket qp : String) (kwargNames : List String) :
    PyCallResult ListObjectsResult :=
  if kwargNames.all (fun k => listObjectsKwargNames.contains k) then
    .ok (list_objects fetch maxPages bucket qp)
  else .typeError

/-- What ListObjectsWorker.run emits: the payload of the data signal, if any,
and whether the error signal was emitted. -/
structure ListWorkerOutcome where
  dataEmitted : Option ListObjectsResult
  errorEmitted : Bool
deriving DecidableEq, Repr

/-- ListObjectsWorker.run (workers.py, lines 172-196): after the cancellation
check it calls self.aws_client.list_objects(self.bucket, self.prefix,
recursive=self.recursive) — passing the keyword argument recursive, which
list_objects does not accept — inside a try whose handler emits the error
signal.  recursiveFlag is the worker's recursive attribute; only the keyword
NAME matters to call binding. -/
def listObjectsWorkerRun (cancelled : Bool)
    (fetch : Option String → ListingPage) (maxPages : Nat)
    (bucket qp : String) (recursiveFlag : Bool) : ListWorkerOutcome :=
  if cancelled then ⟨none, false⟩
  else
    match call_list_objects fetch maxPages bucket qp ["recursive"] with
    | .ok r => ⟨some r, false⟩
    | .typeError => ⟨none, true⟩

/-- Claim C10: for every bucket, prefix and recursive flag, a non-cancelled
ListObjectsWorker.run never emits a data result and always reports an error:
the call passes the unknown keyword recursive to list_objects, so it raises
TypeError, which the handler catches and surfaces through the error signal. -/
theorem list_worker_type_error (cancelled : Bool)
    (fetch : Option String → ListingPage) (maxPages : Nat)
    (bucket qp : String) (recursiveFlag : Bool)
    (hc : cancelled = false) :
    (listObjectsWorkerRun cancelled fetch maxPages bucket qp
        recursiveFlag).dataEmitted = none ∧
    (listObjectsWorkerRun cancelled fetch maxPages bucket qp
        recursiveFlag).errorEmitted = true := by
  subst hc
  have hbind : call_list_objects fetch maxPages bucket qp ["recursive"]
      = .typeError := by
    simp [call_list_objects, listObjectsKwargNames]
  simp [listObjectsWorkerRun, hbind]

/-- Witness for claim C10 at a concrete input. -/
theorem list_worker_type_error_witness :
    (listObjectsWorkerRun false fetchW 20 "bkt" "a/" true).dataEmitted = none ∧
    (listObjectsWorkerRun false fetchW 20 "bkt" "a/" true).errorEmitted = true :=
  list_worker_type_error false fetchW 20 "bkt" "a/" true rfl
